import Mathlib

/-!
Verification of the document-analyzer repository
(`document_analyzer_agent`): a shallow embedding in Lean 4 of

  * `tools/pdf_to_png.py` — the PDF rasterizer tool,
  * `agent.py`            — the two-stage pipeline's content-block assembly,
  * `utils/credentials_loader.py` — the credentials loader,

together with proofs of the behavioural properties stated for them.

Python strings are embedded as Lean `String`s (with `List Char` data);
the Python path helpers from `posixpath` (`expanduser`, `split`,
`dirname`, `basename`, `splitext`, `join`) are reimplemented faithfully
below.  The filesystem is an explicit `World` value, and filesystem
side effects (`os.makedirs`, `image.save`) are recorded as an explicit
ordered list of `FSEffect`s.  Python exceptions are values of `PyExn`,
and fallible code returns `Except PyExn`.
-/

namespace DocAnalyzer

/-! ## Python string and path helpers (posixpath semantics) -/

/-- Python `str.lower()` (ASCII case folding, which is all the code uses). -/
def pyLower (s : String) : String := String.mk (s.toList.map Char.toLower)

/-- Python `str.endswith(t)`: `t` is a suffix of `s`. -/
def pyEndswith (s t : String) : Bool := t.toList.isSuffixOf s.toList

/-- Drop trailing `'/'` characters (Python `str.rstrip('/')`). -/
def rstripSlashL (l : List Char) : List Char :=
  (l.reverse.dropWhile (fun c => c = '/')).reverse

/-- The part of a path strictly after the last `'/'`
(the `tail` of `posixpath.split`). -/
def splitTail (l : List Char) : List Char :=
  (l.reverse.takeWhile (fun c => c ≠ '/')).reverse

/-- The part of a path up to and including the last `'/'`
(the raw `head` of `posixpath.split`, before slash stripping). -/
def splitHeadRaw (l : List Char) : List Char :=
  (l.reverse.dropWhile (fun c => c ≠ '/')).reverse

/-- The `head` of `posixpath.split`: the raw head with trailing slashes
stripped unless the head consists only of slashes. -/
def splitHead (l : List Char) : List Char :=
  let head := splitHeadRaw l
  if head.any (fun c => c ≠ '/') then rstripSlashL head else head

/-- Python `posixpath.split`. -/
def pySplit (p : String) : String × String :=
  (String.mk (splitHead p.toList), String.mk (splitTail p.toList))

/-- Python `os.path.dirname` (posix). -/
def dirname (p : String) : String := (pySplit p).1

/-- Python `os.path.basename` (posix). -/
def basename (p : String) : String := (pySplit p).2

/-- Root part of Python `posixpath.splitext`: strip the extension that
starts at the last `'.'` of the final path component, except that a
component consisting of leading dots only has no extension. -/
def splitextRoot (p : String) : String :=
  let l := p.toList
  let tail := splitTail l
  let extLen := (tail.reverse.takeWhile (fun c => c ≠ '.')).length
  if extLen < tail.length ∧ (tail.take (tail.length - extLen - 1)).any (fun c => c ≠ '.') then
    String.mk (l.take (l.length - extLen - 1))
  else p

/-- Python `posixpath.join` restricted to two arguments, as used by the
rasterizer (`join(output_dir, filename)`). -/
def pjoinL (a b : List Char) : List Char :=
  if b.head? = some '/' then b
  else if a = [] ∨ a.getLast? = some '/' then a ++ b
  else a ++ '/' :: b

/-- String wrapper for `pjoinL`. -/
def pjoin (a b : String) : String := String.mk (pjoinL a.toList b.toList)

/-- Python `str.startswith(t)`: `t` is a prefix of `s`. -/
def pyStartswith (s t : String) : Bool := t.toList.isPrefixOf s.toList

/-- Drop the first `n` characters of a string (Python `s[n:]`). -/
def strDrop (s : String) (n : Nat) : String := String.mk (s.toList.drop n)

/-- Python `os.path.expanduser` (posix): a leading `~` segment expands to
the invoking user's home directory; other `~user` forms are returned
unchanged (no other users are modelled). -/
def expanduser (home path : String) : String :=
  if pyStartswith path "~" = false then path
  else if path = "~" ∨ pyStartswith path "~/" then
    let userhome := String.mk (rstripSlashL home.toList)
    let r := userhome ++ strDrop path 1
    if r = "" then "/" else r
  else path

/-! ## The filesystem world and Python exceptions -/

/-- The ambient state `pdf_to_png` runs against: the invoking user's home
directory, the set of paths for which `os.path.exists` is true, and the
readable PDF documents (path and page count); `convert_from_path` raises
on any path not listed in `pdfs`. -/
structure World where
  home : String
  existing : List String
  pdfs : List (String × Nat)

/-- Python `os.path.exists` over a `World`. -/
def pathExists (w : World) (p : String) : Bool := w.existing.contains p

/-- Page count of the PDF document at a path, if it is a readable PDF. -/
def lookupPdf (w : World) (p : String) : Option Nat :=
  (w.pdfs.find? (fun q => q.1 == p)).map (fun q => q.2)

/-- Python exceptions that the embedded code can raise. -/
inductive PyExn where
  | keyError (key : String)
  | nameError (name : String)
  | pdfError (msg : String)
  deriving DecidableEq

/-- Python `str(e)` for the exceptions above, as interpolated into the
rasterizer's generic error message. -/
def PyExn.str : PyExn → String
  | .keyError k => "\x27" ++ k ++ "\x27"
  | .nameError n => "cannot access local variable \x27" ++ n ++ "\x27"
  | .pdfError m => m

/-- A recorded filesystem side effect, in program order. -/
inductive FSEffect where
  | makedirs (dir : String)
  | writeFile (path : String)
  deriving DecidableEq

/-- The file paths written by a list of effects, in order. -/
def writesOf (effs : List FSEffect) : List String :=
  effs.filterMap (fun e => match e with
    | .writeFile p => some p
    | .makedirs _ => none)

/-- Apply one recorded effect to the world: both `makedirs` and a file
save make the named path exist. -/
def applyEffect (w : World) : FSEffect → World
  | .makedirs d => ⟨w.home, d :: w.existing, w.pdfs⟩
  | .writeFile p => ⟨w.home, p :: w.existing, w.pdfs⟩

/-- Apply a list of recorded effects in order. -/
def applyEffects (w : World) (effs : List FSEffect) : World :=
  effs.foldl applyEffect w

/-! ## The rasterizer tool `pdf_to_png` -/

/-- The `input` dict of a tool use, with the fields `pdf_to_png` reads.
`none` models an absent key.  The Python `int(...)` coercions on `dpi`,
`first_page` and `last_page` are modelled as identities on already
integral values. -/
structure ToolInput where
  pdf_path : Option String
  output_dir : Option String
  dpi : Option Int
  first_page : Option Int
  last_page : Option Int
  deriving DecidableEq

/-- A `ToolUse` value as passed by the host framework: a dict that is
supposed to carry a `toolUseId` and an `input`; `none` models an absent
key. -/
structure ToolUse where
  toolUseId : Option String
  input : Option ToolInput
  deriving DecidableEq

/-- Result status of a tool invocation. -/
inductive Status where
  | success
  | error
  deriving DecidableEq

/-- A structured `ToolResult` payload. -/
structure ToolResult where
  toolUseId : String
  status : Status
  content : List String
  deriving DecidableEq

/-- Modelled from the documented contract of the external `pdf2image`
library backed by poppler (an external dependency, not code of this
repository): render the pages of the PDF at `pdf_path` from `first_page`
(clamped below to page 1) through `last_page` (absent or beyond the end
means through the final page), returning one image per page in ascending
page order; the result lists the absolute 1-based page numbers rendered.
Raises if the path is not a readable PDF.  The `dpi` argument only
affects pixel content, which is not modelled. -/
def convert_from_path (w : World) (pdf_path : String) (dpi : Int)
    (first_page : Int) (last_page : Option Int) : Except PyExn (List Int) :=
  match lookupPdf w pdf_path with
  | none => .error (.pdfError ("Unable to get page count. " ++ pdf_path))
  | some n =>
      let f : Int := max first_page 1
      let l : Int := min (last_page.getD (n : Int)) (n : Int)
      .ok ((List.range (l + 1 - f).toNat).map (fun (k : Nat) => f + (k : Int)))

/-- The body of the `try:` block of `pdf_to_png` (lines 151–209 of
`tools/pdf_to_png.py`), returning either a structured `ToolResult` or
the Python exception it raises, together with the filesystem effects
performed before returning or raising. -/
def pdf_to_png_try (w : World) (tool : ToolUse) :
    Except PyExn ToolResult × List FSEffect :=
  match tool.toolUseId with
  | none => (.error (.keyError "toolUseId"), [])
  | some tool_use_id =>
    match tool.input with
    | none => (.error (.keyError "input"), [])
    | some tool_input =>
      if tool_input.pdf_path = none then
        (.ok ⟨tool_use_id, .error, ["PDF path is required"]⟩, [])
      else
        let pdf_path := expanduser w.home (tool_input.pdf_path.getD "")
        if ¬ pathExists w pdf_path then
          (.ok ⟨tool_use_id, .error, ["PDF file not found at path: " ++ pdf_path]⟩, [])
        else
          let od := expanduser w.home (tool_input.output_dir.getD "")
          let output_dir := if od = "" then dirname pdf_path else od
          let dirEffs := if ¬ pathExists w output_dir then [FSEffect.makedirs output_dir] else []
          let dpi := tool_input.dpi.getD 200
          let first_page := tool_input.first_page.getD 1
          let last_page := tool_input.last_page
          let pdf_filename := basename pdf_path
          let base_filename := splitextRoot pdf_filename
          match convert_from_path w pdf_path dpi first_page last_page with
          | .error e => (.error e, dirEffs)
          | .ok images =>
            let image_paths := (List.range images.length).map
              (fun (k : Nat) => pjoin output_dir
                (base_filename ++ "_page_" ++ toString (first_page + (k : Int)) ++ ".png"))
            (.ok ⟨tool_use_id, .success,
              ["Successfully converted PDF to " ++ toString image_paths.length
                ++ " PNG images: " ++ toString image_paths]⟩,
             dirEffs ++ image_paths.map FSEffect.writeFile)

/-- The full `pdf_to_png` tool, `try` body plus `except Exception`
handler.  The handler builds its error payload from the local
`tool_use_id`; that local is bound exactly when `tool["toolUseId"]`
succeeded, so when the `toolUseId` key is absent the handler itself
raises `UnboundLocalError` (a `NameError`), which escapes to the
caller. -/
def pdf_to_png (w : World) (tool : ToolUse) :
    Except PyExn ToolResult × List FSEffect :=
  match pdf_to_png_try w tool with
  | (.ok r, effs) => (.ok r, effs)
  | (.error e, effs) =>
    match tool.toolUseId with
    | some tool_use_id =>
        (.ok ⟨tool_use_id, .error, ["Error converting PDF to PNG: " ++ e.str]⟩, effs)
    | none => (.error (.nameError "tool_use_id"), effs)

/-! ## Derived descriptions of a successful conversion -/

/-- Output directory the tool resolves for a request: the expanded
`output_dir` if set and nonempty, else the directory of the expanded
source path. -/
def resolvedOutputDir (home : String) (ti : ToolInput) : String :=
  let pdf_path := expanduser home (ti.pdf_path.getD "")
  let od := expanduser home (ti.output_dir.getD "")
  if od = "" then dirname pdf_path else od

/-- Number of pages rendered for a request against an `n`-page PDF. -/
def pageCount (ti : ToolInput) (n : Nat) : Nat :=
  (min (ti.last_page.getD (n : Int)) (n : Int) + 1 - max (ti.first_page.getD 1) 1).toNat

/-- The ordered list of output paths a successful conversion produces. -/
def successPaths (home : String) (ti : ToolInput) (n : Nat) : List String :=
  (List.range (pageCount ti n)).map
    (fun (k : Nat) => pjoin (resolvedOutputDir home ti)
      (splitextRoot (basename (expanduser home (ti.pdf_path.getD "")))
        ++ "_page_" ++ toString (ti.first_page.getD 1 + (k : Int)) ++ ".png"))

/-- The success message the tool renders from its path list. -/
def successMsg (paths : List String) : String :=
  "Successfully converted PDF to " ++ toString paths.length
    ++ " PNG images: " ++ toString paths

/-! ## The pipeline's content-block assembly (`agent.py`, lines 69–88) -/

/-- A file enumerated from the documents directory: its name and the
bytes read from it. -/
structure DocFile where
  name : String
  bytes : List UInt8
  deriving DecidableEq

/-- One content block of the multimodal message handed to the pipeline
entry point: the instruction text, or an image with its format tag and
bytes. -/
inductive ContentBlock where
  | text (s : String)
  | image (format : String) (bytes : List UInt8)
  deriving DecidableEq

/-- The guard of the loop on line 71 of `agent.py`:
`file_name.lower().endswith(('.jpg', '.jpeg', '.png', '.gif', '.webp'))`. -/
def isSupportedImage (file_name : String) : Bool :=
  pyEndswith (pyLower file_name) ".jpg" || pyEndswith (pyLower file_name) ".jpeg"
    || pyEndswith (pyLower file_name) ".png" || pyEndswith (pyLower file_name) ".gif"
    || pyEndswith (pyLower file_name) ".webp"

/-- The `if`/`elif` chain of lines 75–82 of `agent.py` choosing the
image format tag; `none` models the case in which no branch binds
`image_format`. -/
def imageFormat (file_name : String) : Option String :=
  if pyEndswith (pyLower file_name) ".png" then some "png"
  else if pyEndswith (pyLower file_name) ".jpg" || pyEndswith (pyLower file_name) ".jpeg" then
    some "jpeg"
  else if pyEndswith (pyLower file_name) ".gif" then some "gif"
  else if pyEndswith (pyLower file_name) ".webp" then some "webp"
  else none

/-- The warning logged on line 85 of `agent.py` for a skipped file. -/
def skipMsg (file_name : String) : String :=
  "Skipping file " ++ file_name ++ ": not a supported image format (jpg/jpeg/png/gif/webp)"

/-- The `for file_name in file_names:` loop of `agent.py`, appending an
image block for each supported file and a logged warning for each other
file.  If the guard accepted a file but no `elif` branch bound
`image_format`, the `append` would read an unbound local and raise
`NameError`; that branch is modelled as the exception (and proved
unreachable below). -/
def content_blocks_loop (files : List DocFile) (blocks : List ContentBlock)
    (warns : List String) : Except PyExn (List ContentBlock × List String) :=
  match files with
  | [] => .ok (blocks, warns)
  | f :: rest =>
    if isSupportedImage f.name then
      match imageFormat f.name with
      | some fmt => content_blocks_loop rest (blocks ++ [ContentBlock.image fmt f.bytes]) warns
      | none => .error (.nameError "image_format")
    else content_blocks_loop rest blocks (warns ++ [skipMsg f.name])

/-- Assembly of the multimodal input (`agent.py` lines 65–88): the
instruction text block followed by one image block per supported file,
together with the warnings logged for skipped files. -/
def content_blocks (instruction_text : String) (files : List DocFile) :
    Except PyExn (List ContentBlock × List String) :=
  content_blocks_loop files [ContentBlock.text instruction_text] []

/-! ## The credentials loader (`utils/credentials_loader.py`) -/

/-- The credentials dict `load_credentials` returns: three optional
observability keys, `None` when unset. -/
structure Credentials where
  LANGFUSE_PUBLIC_KEY : Option String
  LANGFUSE_SECRET_KEY : Option String
  LANGFUSE_HOST : Option String
  deriving DecidableEq

/-- A log record emitted by the loader. -/
inductive LogMsg where
  | warnLog (s : String)
  | errorLog (s : String)
  | infoLog (s : String)
  deriving DecidableEq

/-- The ambient state `load_credentials` runs against: the path it is
given, whether a file exists there, and the outcome of
`configparser.ConfigParser().read` on it — either the parsed sections
(each a list of key/value options, keys already lower-cased by
`configparser`) or the parse exception's message. -/
structure CredWorld where
  credentials_file : String
  present : Bool
  parsed : Except String (List (String × List (String × String)))

/-- The embedding of `load_credentials` (`credentials_loader.py`,
lines 11–44).  Everything after the existence check runs inside
`try: ... except Exception`, so a parse failure degrades to a logged
error and the initial all-`None` dict; a missing section or key leaves
the corresponding values `None`. -/
def load_credentials (w : CredWorld) : Credentials × List LogMsg :=
  let credentials : Credentials := ⟨none, none, none⟩
  if ¬ w.present then
    (credentials, [.warnLog ("Credentials file not found: " ++ w.credentials_file)])
  else
    match w.parsed with
    | .error e => (credentials, [.errorLog ("Error loading credentials: " ++ e)])
    | .ok sections =>
      match sections.find? (fun s => s.1 == "langfuse") with
      | none => (credentials, [.infoLog ("Loaded credentials from " ++ w.credentials_file)])
      | some sec =>
        let lookup := fun (key : String) =>
          (sec.2.find? (fun p => p.1 == pyLower key)).map (fun p => p.2)
        (⟨lookup "LANGFUSE_PUBLIC_KEY", lookup "LANGFUSE_SECRET_KEY", lookup "LANGFUSE_HOST"⟩,
         [.infoLog ("Loaded credentials from " ++ w.credentials_file)])

/-! ## Concrete fixtures used as witnesses -/

/-- A concrete world: one three-page PDF under `/docs`. -/
def wEx : World := ⟨"/home/user", ["/docs/report.pdf", "/docs"], [("/docs/report.pdf", 3)]⟩

/-- A request for pages 1–2 of the example PDF, default output dir. -/
def tiRange : ToolInput := ⟨some "/docs/report.pdf", none, none, some 1, some 2⟩

/-- A request with both page bounds unset. -/
def tiAll : ToolInput := ⟨some "/docs/report.pdf", none, none, none, none⟩

/-- A request whose source path does not exist. -/
def tiMissing : ToolInput := ⟨some "/docs/absent.pdf", some "/out", none, none, none⟩

/-- Tool uses wrapping the example requests. -/
def toolRange : ToolUse := ⟨some "tooluse-1", some tiRange⟩

/-- Tool use for the unbounded-range request. -/
def toolAll : ToolUse := ⟨some "tooluse-2", some tiAll⟩

/-- Tool use for the missing-source request. -/
def toolMissing : ToolUse := ⟨some "tooluse-3", some tiMissing⟩

/-- A tool use whose dict lacks the `toolUseId` key. -/
def toolNoId : ToolUse := ⟨none, some tiRange⟩

/-- The example instruction text. -/
def instrEx : String := "Analyze the provided images and create an HTML report"

/-- The mixed documents directory of the specification's own test case. -/
def mixedFiles : List DocFile :=
  [⟨"a.png", [1]⟩, ⟨"b.txt", [2]⟩, ⟨"c.PDF", [3]⟩, ⟨"d.webp", [4]⟩]

/-- A credentials world whose file is missing. -/
def cwMissing : CredWorld := ⟨"/conf/credentials.properties", false, .ok []⟩

/-- A credentials world whose file parses but has no `langfuse` keys
beside the public key. -/
def cwPartial : CredWorld :=
  ⟨"/conf/credentials.properties", true, .ok [("langfuse", [("langfuse_public_key", "pk")])]⟩

/-! ## List helper lemmas -/

theorem takeWhile_append_all {α : Type} {p : α → Bool} {xs ys : List α}
    (h : ∀ x ∈ xs, p x = true) :
    (xs ++ ys).takeWhile p = xs ++ ys.takeWhile p := by
  induction xs with
  | nil => simp
  | cons a l ih =>
      have ha : p a = true := h a (List.mem_cons_self a l)
      have hl : ∀ x ∈ l, p x = true := fun x hx => h x (List.mem_cons_of_mem a hx)
      simp [List.takeWhile_cons, ha, ih hl]

theorem dropWhile_append_all {α : Type} {p : α → Bool} {xs ys : List α}
    (h : ∀ x ∈ xs, p x = true) :
    (xs ++ ys).dropWhile p = ys.dropWhile p := by
  induction xs with
  | nil => simp
  | cons a l ih =>
      have ha : p a = true := h a (List.mem_cons_self a l)
      have hl : ∀ x ∈ l, p x = true := fun x hx => h x (List.mem_cons_of_mem a hx)
      simp [List.dropWhile_cons, ha, ih hl]

theorem dropWhile_cons_false {α : Type} {p : α → Bool} {a : α} {l : List α}
    (h : p a = false) : (a :: l).dropWhile p = a :: l := by
  simp [List.dropWhile_cons, h]

theorem dropWhile_all_nil {α : Type} {p : α → Bool} {xs : List α}
    (h : ∀ x ∈ xs, p x = true) : xs.dropWhile p = [] := by
  induction xs with
  | nil => simp
  | cons a l ih =>
      have ha : p a = true := h a (List.mem_cons_self a l)
      have hl : ∀ x ∈ l, p x = true := fun x hx => h x (List.mem_cons_of_mem a hx)
      simp [List.dropWhile_cons, ha, ih hl]

/-! ## Path lemmas -/

theorem splitTail_no_slash (l : List Char) : ∀ c ∈ splitTail l, c ≠ '/' := by
  intro c hc
  rw [splitTail, List.mem_reverse] at hc
  simpa using List.mem_takeWhile_imp hc

theorem mem_dropWhile_of_not {α : Type} {p : α → Bool} {x : α} {l : List α}
    (hx : x ∈ l) (hpx : p x = false) : x ∈ l.dropWhile p := by
  induction l with
  | nil => cases hx
  | cons b u ih =>
      rcases List.mem_cons.mp hx with rfl | hxu
      · rw [List.dropWhile_cons]
        split
        · exact absurd (by assumption) (by simp [hpx])
        · exact List.mem_cons_self _ _
      · rw [List.dropWhile_cons]
        split
        · exact ih hxu
        · exact List.mem_cons_of_mem _ hxu

theorem rstripSlashL_spec {l : List Char} (h : l.any (fun c => c ≠ '/') = true) :
    rstripSlashL l ≠ [] ∧ (rstripSlashL l).getLast? ≠ some '/' := by
  rw [rstripSlashL]
  have hne : l.reverse.dropWhile (fun c => c = '/') ≠ [] := by
    rcases List.any_eq_true.mp h with ⟨x, hx, hpx⟩
    have hx' : x ∈ l.reverse.dropWhile (fun c => c = '/') :=
      mem_dropWhile_of_not (List.mem_reverse.mpr hx) (by simpa using hpx)
    intro hnil
    rw [hnil] at hx'
    cases hx'
  obtain ⟨a, t, hm⟩ := List.exists_cons_of_ne_nil hne
  rw [hm]
  constructor
  · simp
  · have ha : (a = '/') = False := by
      have := List.head?_dropWhile_not (fun c => c = '/') l.reverse
      rw [hm] at this
      simpa using this
    rw [List.getLast?_reverse]
    simp [ha]

theorem splitHead_cases (l : List Char) :
    (∀ c ∈ splitHead l, c = '/') ∨
      (splitHead l ≠ [] ∧ (splitHead l).getLast? ≠ some '/') := by
  rw [splitHead]
  by_cases h : (splitHeadRaw l).any (fun c => c ≠ '/') = true
  · right
    rw [if_pos h]
    exact rstripSlashL_spec h
  · left
    rw [if_neg h]
    intro c hc
    by_contra hne
    exact h (List.any_eq_true.mpr ⟨c, hc, by simpa using hne⟩)

theorem splitHead_pjoinL {d f : List Char}
    (hd : (∀ c ∈ d, c = '/') ∨ (d ≠ [] ∧ d.getLast? ≠ some '/'))
    (hf : ∀ c ∈ f, c ≠ '/') :
    splitHead (pjoinL d f) = d := by
  have hb : ¬ (f.head? = some '/') := by
    cases f with
    | nil => simp
    | cons a t =>
        have := hf a (List.mem_cons_self a t)
        simp [this]
  have hfrev : ∀ c ∈ f.reverse, (decide (c ≠ '/')) = true := by
    intro c hc
    simpa using hf c (List.mem_reverse.mp hc)
  rcases hd with hall | ⟨hne, hlast⟩
  · by_cases hdn : d = []
    · -- d = []: the join is f itself, whose head part is empty
      subst hdn
      rw [pjoinL, if_neg hb, if_pos (Or.inl rfl)]
      rw [splitHead, splitHeadRaw, List.nil_append]
      rw [dropWhile_all_nil hfrev]
      simp
    · -- d nonempty and all slashes: the join appends and the head part is d
      have hlast' : d.getLast? = some '/' := by
        rw [List.getLast?_eq_getLast d hdn]
        exact congrArg some (hall _ (List.getLast_mem hdn))
      rw [pjoinL, if_neg hb, if_pos (Or.inr hlast')]
      have hrne : d.reverse ≠ [] := by simpa using hdn
      obtain ⟨a, t, hrev⟩ := List.exists_cons_of_ne_nil hrne
      have ha : a = '/' := by
        have : a ∈ d := by
          rw [← List.mem_reverse, hrev]
          exact List.mem_cons_self a t
        exact hall a this
      rw [splitHead, splitHeadRaw, List.reverse_append, hrev]
      rw [dropWhile_append_all hfrev, dropWhile_cons_false (by simp [ha])]
      rw [← hrev, List.reverse_reverse]
      have hanyd : d.any (fun c => c ≠ '/') = false := by
        rcases hany : d.any (fun c => c ≠ '/') with _ | _
        · rfl
        · exfalso
          rcases List.any_eq_true.mp hany with ⟨x, hx, hpx⟩
          have hxne : ¬ (x = '/') := by simpa using hpx
          exact hxne (hall x hx)
      rw [if_neg (by rw [hanyd]; exact Bool.false_ne_true)]
  · -- d nonempty, not ending in a slash: the join inserts a slash
    have hlastne : ¬ (d.getLast? = some '/') := hlast
    rw [pjoinL, if_neg hb, if_neg (by simp [hne, hlastne])]
    have hrevshape : (d ++ '/' :: f).reverse = f.reverse ++ '/' :: d.reverse := by
      simp
    rw [splitHead, splitHeadRaw, hrevshape]
    rw [dropWhile_append_all hfrev, dropWhile_cons_false (by simp)]
    have hraw : ('/' :: d.reverse).reverse = d ++ ['/'] := by simp
    rw [hraw]
    have hgl : d.getLast hne ≠ '/' := by
      intro h
    -- if the last element were a slash the hypothesis would be violated
      exact hlast (by rw [List.getLast?_eq_getLast d hne, h])
    have hany : (d ++ ['/']).any (fun c => c ≠ '/') = true := by
      apply List.any_eq_true.mpr
      exact ⟨d.getLast hne, List.mem_append_left _ (List.getLast_mem hne), by simpa using hgl⟩
    rw [if_pos hany]
    rw [rstripSlashL, List.reverse_append]
    simp only [List.reverse_cons, List.reverse_nil, List.nil_append, List.singleton_append]
    rw [List.dropWhile_cons]
    rw [if_pos (by simp)]
    have hrne : d.reverse ≠ [] := by simpa using hne
    obtain ⟨a, t, hrev⟩ := List.exists_cons_of_ne_nil hrne
    have ha : a = d.getLast hne := by
      have h1 : d.reverse.head? = d.getLast? := List.head?_reverse d
      rw [hrev, List.getLast?_eq_getLast d hne] at h1
      simpa using h1
    rw [hrev, dropWhile_cons_false (by simp [ha, hgl])]
    rw [← hrev, List.reverse_reverse]

theorem dirname_pjoin (q f : String) (hf : ∀ c ∈ f.toList, c ≠ '/') :
    dirname (pjoin (dirname q) f) = dirname q := by
  have h := splitHead_pjoinL (d := splitHead q.toList) (f := f.toList)
    (splitHead_cases q.toList) hf
  simp only [dirname, pjoin, pySplit]
  exact congrArg String.mk (by simpa using h)

/-! ## Characters of rendered integers -/

theorem digitChar_ne_slash {m : Nat} (h : m < 16) : Nat.digitChar m ≠ '/' := by
  interval_cases m <;> decide

theorem toDigitsCore_ne_slash (fuel n : Nat) (ds : List Char)
    (hds : ∀ c ∈ ds, c ≠ '/') : ∀ c ∈ Nat.toDigitsCore 10 fuel n ds, c ≠ '/' := by
  induction fuel generalizing n ds with
  | zero => simpa [Nat.toDigitsCore] using hds
  | succ f ih =>
      have hds' : ∀ c ∈ Nat.digitChar (n % 10) :: ds, c ≠ '/' := by
        intro c hc
        rcases List.mem_cons.mp hc with rfl | hcds
        · exact digitChar_ne_slash (by omega)
        · exact hds c hcds
      simp only [Nat.toDigitsCore]
      split
      · exact hds'
      · exact ih _ _ hds'

theorem nat_repr_ne_slash (n : Nat) : ∀ c ∈ (Nat.repr n).toList, c ≠ '/' := by
  have h : (Nat.repr n).toList = Nat.toDigits 10 n := rfl
  rw [h, Nat.toDigits]
  exact toDigitsCore_ne_slash _ _ _ (by intro c hc; cases hc)

theorem toString_int_ne_slash (k : Int) : ∀ c ∈ (toString k).toList, c ≠ '/' := by
  cases k with
  | ofNat m =>
      have h : toString (Int.ofNat m) = Nat.repr m := rfl
      rw [h]
      exact nat_repr_ne_slash m
  | negSucc m =>
      have h : toString (Int.negSucc m) = "-" ++ Nat.repr (m + 1) := rfl
      rw [h]
      intro c hc
      have hc' : c ∈ ("-").data ++ (Nat.repr (m + 1)).data := by
        simpa [String.toList, String.data_append] using hc
      rcases List.mem_append.mp hc' with h1 | h2
      · have : c = '-' := by simpa using h1
        simp [this]
      · exact nat_repr_ne_slash (m + 1) c h2

/-! ## Slash-freeness of generated file names -/

theorem basename_ne_slash (p : String) : ∀ c ∈ (basename p).toList, c ≠ '/' := by
  intro c hc
  exact splitTail_no_slash p.toList c (by simpa [basename, pySplit] using hc)

theorem splitextRoot_sub (q : String) : ∀ c ∈ (splitextRoot q).toList, c ∈ q.toList := by
  intro c hc
  rw [splitextRoot] at hc
  split at hc
  · exact List.take_subset _ _ (by simpa using hc)
  · exact hc

theorem fname_ne_slash (p : String) (k : Int) :
    ∀ c ∈ (splitextRoot (basename p) ++ "_page_" ++ toString k ++ ".png").toList, c ≠ '/' := by
  intro c hc
  have hc' : c ∈ (splitextRoot (basename p)).data ++ ("_page_").data
      ++ (toString k).data ++ (".png").data := by
    simpa [String.toList, String.data_append] using hc
  rcases List.mem_append.mp hc' with h3 | h4
  · rcases List.mem_append.mp h3 with h5 | h6
    · rcases List.mem_append.mp h5 with h7 | h8
      · exact basename_ne_slash p c (splitextRoot_sub (basename p) c h7)
      · intro heq
        subst heq
        revert h8
        decide
    · exact toString_int_ne_slash k c h6
  · intro heq
    subst heq
    revert h4
    decide

/-! ## Suffix disjointness of the extension tests -/

theorem not_both_ends {s a b : String}
    (h : a.toList.length ≤ b.toList.length)
    (hne : a.toList ≠ b.toList.drop (b.toList.length - a.toList.length)) :
    ¬ (pyEndswith s a = true ∧ pyEndswith s b = true) := by
  rintro ⟨ha, hb⟩
  rw [pyEndswith] at ha hb
  have hsa : a.toList <:+ s.toList := List.isSuffixOf_iff_suffix.mp ha
  have hsb : b.toList <:+ s.toList := List.isSuffixOf_iff_suffix.mp hb
  have hab : a.toList <:+ b.toList := List.suffix_of_suffix_length_le hsa hsb h
  exact hne (List.suffix_iff_eq_drop.mp hab)

theorem ends_false_left {s a b : String}
    (h : ¬ (pyEndswith s a = true ∧ pyEndswith s b = true))
    (hb : pyEndswith s b = true) : pyEndswith s a = false := by
  rcases ha : pyEndswith s a with _ | _
  · rfl
  · exact absurd ⟨ha, hb⟩ h

theorem ends_false_right {s a b : String}
    (h : ¬ (pyEndswith s a = true ∧ pyEndswith s b = true))
    (ha : pyEndswith s a = true) : pyEndswith s b = false := by
  rcases hb : pyEndswith s b with _ | _
  · rfl
  · exact absurd ⟨ha, hb⟩ h

/-! ## Properties of the image-extension filter -/

theorem imageFormat_eq_none_iff (q : String) :
    imageFormat q = none ↔ isSupportedImage q = false := by
  rcases h1 : pyEndswith (pyLower q) ".jpg" with _ | _ <;>
    rcases h2 : pyEndswith (pyLower q) ".jpeg" with _ | _ <;>
      rcases h3 : pyEndswith (pyLower q) ".png" with _ | _ <;>
        rcases h4 : pyEndswith (pyLower q) ".gif" with _ | _ <;>
          rcases h5 : pyEndswith (pyLower q) ".webp" with _ | _ <;>
            simp [imageFormat, isSupportedImage, h1, h2, h3, h4, h5]

/-! ## Characterization of the content-block assembly loop -/

theorem content_blocks_loop_eq (files : List DocFile) (blocks : List ContentBlock)
    (warns : List String) :
    content_blocks_loop files blocks warns =
      .ok (blocks ++ files.filterMap
             (fun f => (imageFormat f.name).map (fun m => ContentBlock.image m f.bytes)),
           warns ++ (files.filter (fun f => ! isSupportedImage f.name)).map
             (fun f => skipMsg f.name)) := by
  induction files generalizing blocks warns with
  | nil => simp [content_blocks_loop]
  | cons f rest ih =>
      rw [content_blocks_loop]
      rcases hs : isSupportedImage f.name with _ | _
      · have hfmt : imageFormat f.name = none := (imageFormat_eq_none_iff f.name).mpr hs
        simp [ih, hfmt, hs]
      · rcases hfmt : imageFormat f.name with _ | fmt
        · exact absurd hs (by simp [(imageFormat_eq_none_iff f.name).mp hfmt])
        · simp [ih, hfmt, hs]

theorem content_blocks_eq (s : String) (files : List DocFile) :
    content_blocks s files =
      .ok (ContentBlock.text s :: files.filterMap
             (fun f => (imageFormat f.name).map (fun m => ContentBlock.image m f.bytes)),
           (files.filter (fun f => ! isSupportedImage f.name)).map
             (fun f => skipMsg f.name)) := by
  rw [content_blocks, content_blocks_loop_eq]
  simp

/-! ## Effect bookkeeping lemmas -/

theorem writesOf_append (xs ys : List FSEffect) :
    writesOf (xs ++ ys) = writesOf xs ++ writesOf ys := by
  simp [writesOf, List.filterMap_append]

theorem writesOf_map_writeFile (ps : List String) :
    writesOf (ps.map FSEffect.writeFile) = ps := by
  induction ps with
  | nil => rfl
  | cons p t ih => simp [writesOf, List.filterMap_cons] at ih ⊢; exact ih

theorem writesOf_dirEffs (c : Bool) (d : String) :
    writesOf (if c = false then [FSEffect.makedirs d] else []) = [] := by
  rcases c with _ | _ <;> simp [writesOf]

theorem applyEffects_home (w : World) (effs : List FSEffect) :
    (applyEffects w effs).home = w.home := by
  induction effs generalizing w with
  | nil => rfl
  | cons e t ih =>
      rw [applyEffects, List.foldl_cons, ← applyEffects]
      rw [ih]
      rcases e with d | p <;> rfl

theorem applyEffects_pdfs (w : World) (effs : List FSEffect) :
    (applyEffects w effs).pdfs = w.pdfs := by
  induction effs generalizing w with
  | nil => rfl
  | cons e t ih =>
      rw [applyEffects, List.foldl_cons, ← applyEffects]
      rw [ih]
      rcases e with d | p <;> rfl

theorem lookupPdf_applyEffects (w : World) (effs : List FSEffect) (p : String) :
    lookupPdf (applyEffects w effs) p = lookupPdf w p := by
  rw [lookupPdf, applyEffects_pdfs, lookupPdf]

theorem pathExists_applyEffect_of_true (w : World) (e : FSEffect) (p : String)
    (h : pathExists w p = true) : pathExists (applyEffect w e) p = true := by
  rw [pathExists] at h
  rcases e with d | q
  · show (d :: w.existing).contains p = true
    rw [List.contains_cons, h, Bool.or_true]
  · show (q :: w.existing).contains p = true
    rw [List.contains_cons, h, Bool.or_true]

theorem pathExists_applyEffects_of_true (w : World) (effs : List FSEffect) (p : String)
    (h : pathExists w p = true) : pathExists (applyEffects w effs) p = true := by
  induction effs generalizing w with
  | nil => exact h
  | cons e t ih =>
      rw [applyEffects, List.foldl_cons, ← applyEffects]
      exact ih _ (pathExists_applyEffect_of_true w e p h)

theorem pathExists_applyEffects_of_mem (w : World) (effs : List FSEffect) (p : String)
    (h : FSEffect.makedirs p ∈ effs ∨ FSEffect.writeFile p ∈ effs) :
    pathExists (applyEffects w effs) p = true := by
  induction effs generalizing w with
  | nil => rcases h with h | h <;> cases h
  | cons e t ih =>
      rw [applyEffects, List.foldl_cons, ← applyEffects]
      by_cases he : FSEffect.makedirs p = e ∨ FSEffect.writeFile p = e
      · apply pathExists_applyEffects_of_true
        rcases he with he | he <;>
          rw [← he] <;> simp [pathExists, applyEffect]
      · push_neg at he
        apply ih
        rcases h with h | h
        · rcases List.mem_cons.mp h with h1 | h1
          · exact absurd h1 he.1
          · exact Or.inl h1
        · rcases List.mem_cons.mp h with h1 | h1
          · exact absurd h1 he.2
          · exact Or.inr h1

/-! ## Characterization of a successful conversion -/

theorem pdf_to_png_success (w : World) (tool : ToolUse) (t r : String) (i : ToolInput)
    (n : Nat)
    (htid : tool.toolUseId = some t) (hin : tool.input = some i) (hp : i.pdf_path = some r)
    (hex : pathExists w (expanduser w.home r) = true)
    (hpdf : lookupPdf w (expanduser w.home r) = some n) :
    pdf_to_png w tool =
      (Except.ok ⟨t, Status.success, [successMsg (successPaths w.home i n)]⟩,
       (if pathExists w (resolvedOutputDir w.home i) = false
        then [FSEffect.makedirs (resolvedOutputDir w.home i)] else [])
       ++ (successPaths w.home i n).map FSEffect.writeFile) := by
  simp [pdf_to_png, pdf_to_png_try, htid, hin, hp, hex, hpdf, convert_from_path,
    successMsg, successPaths, pageCount, resolvedOutputDir]

theorem writesOf_success_effs (c : Bool) (d : String) (ps : List String) :
    writesOf ((if c = false then [FSEffect.makedirs d] else [])
      ++ ps.map FSEffect.writeFile) = ps := by
  rw [writesOf_append, writesOf_dirEffs, writesOf_map_writeFile, List.nil_append]

theorem writesOf_pdf_to_png (w : World) (tool : ToolUse) (t r : String) (i : ToolInput)
    (n : Nat)
    (htid : tool.toolUseId = some t) (hin : tool.input = some i) (hp : i.pdf_path = some r)
    (hex : pathExists w (expanduser w.home r) = true)
    (hpdf : lookupPdf w (expanduser w.home r) = some n) :
    writesOf (pdf_to_png w tool).2 = successPaths w.home i n := by
  rw [pdf_to_png_success w tool t r i n htid hin hp hex hpdf]
  exact writesOf_success_effs _ _ _

theorem pathExists_after_success (w : World) (c : Bool) (d : String) (ps : List String)
    (h : pathExists w d = c) :
    pathExists (applyEffects w ((if c = false then [FSEffect.makedirs d] else [])
      ++ ps.map FSEffect.writeFile)) d = true := by
  rcases c with _ | _
  · apply pathExists_applyEffects_of_mem
    left
    simp
  · exact pathExists_applyEffects_of_true _ _ _ h

theorem pathExists_written (w : World) (es : List FSEffect) (ps : List String) (p : String)
    (h : p ∈ ps) :
    pathExists (applyEffects w (es ++ ps.map FSEffect.writeFile)) p = true := by
  apply pathExists_applyEffects_of_mem
  right
  exact List.mem_append_right _ (List.mem_map_of_mem _ h)

/-- C1: for a valid PDF with `n` pages and a requested range `[a, b]` with
`1 ≤ a ≤ b ≤ n`, a successful `pdf_to_png` invocation produces exactly
`b − a + 1` output paths, ordered by ascending page number, the one at
offset `j` being `<output_dir>/<base>_page_<a+j>.png` with the absolute
1-based page number `a + j` in the name. -/
theorem C1_range_and_naming (w : World) (tool : ToolUse) (t r : String) (i : ToolInput)
    (n : Nat) (a b : Int)
    (htid : tool.toolUseId = some t) (hin : tool.input = some i) (hp : i.pdf_path = some r)
    (hex : pathExists w (expanduser w.home r) = true)
    (hpdf : lookupPdf w (expanduser w.home r) = some n)
    (hfp : i.first_page = some a) (hlp : i.last_page = some b)
    (h1 : 1 ≤ a) (hab : a ≤ b) (hbn : b ≤ (n : Int)) :
    ∃ res : ToolResult,
      (pdf_to_png w tool).1 = Except.ok res ∧ res.status = Status.success ∧
      (writesOf (pdf_to_png w tool).2).length = (b - a + 1).toNat ∧
      ∀ j : Nat, j < (b - a + 1).toNat →
        (writesOf (pdf_to_png w tool).2)[j]? =
          some (pjoin (resolvedOutputDir w.home i)
            (splitextRoot (basename (expanduser w.home (i.pdf_path.getD "")))
              ++ "_page_" ++ toString (a + (j : Int)) ++ ".png")) := by
  have hw := writesOf_pdf_to_png w tool t r i n htid hin hp hex hpdf
  have hpc : pageCount i n = (b - a + 1).toNat := by
    rw [pageCount, hfp, hlp]
    simp only [Option.getD_some]
    rw [max_eq_left h1, min_eq_left hbn]
    congr 1
    omega
  refine ⟨⟨t, Status.success, [successMsg (successPaths w.home i n)]⟩, ?_, rfl, ?_, ?_⟩
  · rw [pdf_to_png_success w tool t r i n htid hin hp hex hpdf]
  · rw [hw, successPaths, List.length_map, List.length_range, hpc]
  · intro j hj
    rw [hw, successPaths, List.getElem?_map,
      List.getElem?_range (by rw [hpc]; exact hj)]
    rw [hfp]
    simp

/-- Witness for C1 at a concrete three-page PDF and the range `[1, 2]`. -/
theorem C1_witness :
    ∃ res : ToolResult,
      (pdf_to_png wEx toolRange).1 = Except.ok res ∧ res.status = Status.success ∧
      (writesOf (pdf_to_png wEx toolRange).2).length = ((2 : Int) - 1 + 1).toNat ∧
      ∀ j : Nat, j < ((2 : Int) - 1 + 1).toNat →
        (writesOf (pdf_to_png wEx toolRange).2)[j]? =
          some (pjoin (resolvedOutputDir wEx.home tiRange)
            (splitextRoot (basename (expanduser wEx.home (tiRange.pdf_path.getD "")))
              ++ "_page_" ++ toString ((1 : Int) + (j : Int)) ++ ".png")) :=
  C1_range_and_naming wEx toolRange "tooluse-1" "/docs/report.pdf" tiRange 3 1 2
    rfl rfl rfl (by decide) (by decide) rfl rfl (by decide) (by decide) (by decide)

/-- C2: the claim that `pdf_to_png` never lets an exception escape fails:
whenever the tool-use dict lacks the `toolUseId` key, the `except`
handler reads the unbound local `tool_use_id` and the resulting
`UnboundLocalError` escapes to the caller. -/
theorem C2_exception_escapes (w : World) (tool : ToolUse)
    (h : tool.toolUseId = none) :
    pdf_to_png w tool = (Except.error (PyExn.nameError "tool_use_id"), []) := by
  simp [pdf_to_png, pdf_to_png_try, h]

/-- Witness for C2: a concrete tool use without `toolUseId`. -/
theorem C2_witness :
    pdf_to_png wEx toolNoId = (Except.error (PyExn.nameError "tool_use_id"), []) :=
  C2_exception_escapes wEx toolNoId rfl

/-- C4: when `output_dir` is unset, every output path of a successful
conversion lies in the directory of the expanded source path. -/
theorem C4_default_output_dir (w : World) (tool : ToolUse) (t r : String) (i : ToolInput)
    (n : Nat)
    (htid : tool.toolUseId = some t) (hin : tool.input = some i) (hp : i.pdf_path = some r)
    (hex : pathExists w (expanduser w.home r) = true)
    (hpdf : lookupPdf w (expanduser w.home r) = some n)
    (hout : i.output_dir = none) :
    ∀ p ∈ writesOf (pdf_to_png w tool).2, dirname p = dirname (expanduser w.home r) := by
  have hw := writesOf_pdf_to_png w tool t r i n htid hin hp hex hpdf
  rw [hw, successPaths]
  intro p hp2
  rcases List.mem_map.mp hp2 with ⟨j, hj, rfl⟩
  have hod : resolvedOutputDir w.home i = dirname (expanduser w.home r) := by
    rw [resolvedOutputDir, hout, hp]
    have he : expanduser w.home (Option.getD none "") = "" := rfl
    rw [he, if_pos rfl]
    simp
  rw [hod, hp]
  simp only [Option.getD_some]
  exact dirname_pjoin (expanduser w.home r) _
    (fname_ne_slash (expanduser w.home r) (i.first_page.getD 1 + (j : Int)))

/-- Witness for C4 at the concrete request with unset `output_dir`: the
first written file lives in the source PDF's own directory. -/
theorem C4_witness :
    dirname "/docs/report_page_1.png" = dirname (expanduser wEx.home "/docs/report.pdf") :=
  C4_default_output_dir wEx toolRange "tooluse-1" "/docs/report.pdf" tiRange 3
    rfl rfl rfl (by decide) (by decide) rfl "/docs/report_page_1.png" (by decide)

/-- C5: a request whose expanded source path does not exist returns the
`NotFound`-style structured error and performs no filesystem effect at
all — in particular the output directory is not created. -/
theorem C5_not_found (w : World) (tool : ToolUse) (t r : String) (i : ToolInput)
    (htid : tool.toolUseId = some t) (hin : tool.input = some i) (hp : i.pdf_path = some r)
    (hnex : pathExists w (expanduser w.home r) = false) :
    pdf_to_png w tool =
      (Except.ok ⟨t, Status.error,
        ["PDF file not found at path: " ++ expanduser w.home r]⟩, []) := by
  simp [pdf_to_png, pdf_to_png_try, htid, hin, hp, hnex]

/-- Witness for C5 at a concrete missing source path. -/
theorem C5_witness :
    pdf_to_png wEx toolMissing =
      (Except.ok ⟨"tooluse-3", Status.error,
        ["PDF file not found at path: " ++ expanduser wEx.home "/docs/absent.pdf"]⟩, []) :=
  C5_not_found wEx toolMissing "tooluse-3" "/docs/absent.pdf" tiMissing
    rfl rfl rfl (by decide)

/-- C6: re-running the same successful conversion request is idempotent:
the second run returns the identical result (hence the identical ordered
path list), its only filesystem effects are writes of exactly the same
paths (no new directory creation, no differently named files), and each
of those paths already exists after the first run, so the writes
overwrite rather than create. -/
theorem C6_idempotent (w : World) (tool : ToolUse) (t r : String) (i : ToolInput)
    (n : Nat)
    (htid : tool.toolUseId = some t) (hin : tool.input = some i) (hp : i.pdf_path = some r)
    (hex : pathExists w (expanduser w.home r) = true)
    (hpdf : lookupPdf w (expanduser w.home r) = some n) :
    pdf_to_png (applyEffects w (pdf_to_png w tool).2) tool
        = ((pdf_to_png w tool).1, (writesOf (pdf_to_png w tool).2).map FSEffect.writeFile)
      ∧ ∀ p ∈ writesOf (pdf_to_png w tool).2,
          pathExists (applyEffects w (pdf_to_png w tool).2) p = true := by
  have hch := pdf_to_png_success w tool t r i n htid hin hp hex hpdf
  have hw := writesOf_pdf_to_png w tool t r i n htid hin hp hex hpdf
  have hhome : (applyEffects w (pdf_to_png w tool).2).home = w.home :=
    applyEffects_home _ _
  have hex2 : pathExists (applyEffects w (pdf_to_png w tool).2)
      (expanduser (applyEffects w (pdf_to_png w tool).2).home r) = true := by
    rw [hhome]
    exact pathExists_applyEffects_of_true _ _ _ hex
  have hpdf2 : lookupPdf (applyEffects w (pdf_to_png w tool).2)
      (expanduser (applyEffects w (pdf_to_png w tool).2).home r) = some n := by
    rw [hhome, lookupPdf_applyEffects]
    exact hpdf
  have hch2 := pdf_to_png_success (applyEffects w (pdf_to_png w tool).2) tool t r i n
    htid hin hp hex2 hpdf2
  rw [hhome] at hch2
  have hdir2 : pathExists (applyEffects w (pdf_to_png w tool).2)
      (resolvedOutputDir w.home i) = true := by
    conv_lhs => rw [hch]
    exact pathExists_after_success w _ _ _ rfl
  rw [hdir2] at hch2
  constructor
  · rw [hch2, hw, hch]
    simp
  · intro p hp2
    rw [hw] at hp2
    conv_lhs => rw [hch]
    exact pathExists_written w _ _ p hp2

/-- Witness for C6 at the concrete request. -/
theorem C6_witness :
    pdf_to_png (applyEffects wEx (pdf_to_png wEx toolRange).2) toolRange
        = ((pdf_to_png wEx toolRange).1,
           (writesOf (pdf_to_png wEx toolRange).2).map FSEffect.writeFile)
      ∧ ∀ p ∈ writesOf (pdf_to_png wEx toolRange).2,
          pathExists (applyEffects wEx (pdf_to_png wEx toolRange).2) p = true :=
  C6_idempotent wEx toolRange "tooluse-1" "/docs/report.pdf" tiRange 3
    rfl rfl rfl (by decide) (by decide)

/-- C7: with `first_page` unset it defaults to 1, and with `last_page`
unset the rasterization runs through the final page: every page of the
`n`-page document is converted, the path at offset `j` carrying the
1-based page number `1 + j`. -/
theorem C7_default_page_range (w : World) (tool : ToolUse) (t r : String) (i : ToolInput)
    (n : Nat)
    (htid : tool.toolUseId = some t) (hin : tool.input = some i) (hp : i.pdf_path = some r)
    (hex : pathExists w (expanduser w.home r) = true)
    (hpdf : lookupPdf w (expanduser w.home r) = some n)
    (hfp : i.first_page = none) (hlp : i.last_page = none) :
    (writesOf (pdf_to_png w tool).2).length = n ∧
    ∀ j : Nat, j < n →
      (writesOf (pdf_to_png w tool).2)[j]? =
        some (pjoin (resolvedOutputDir w.home i)
          (splitextRoot (basename (expanduser w.home (i.pdf_path.getD "")))
            ++ "_page_" ++ toString (1 + (j : Int)) ++ ".png")) := by
  have hw := writesOf_pdf_to_png w tool t r i n htid hin hp hex hpdf
  have hpc : pageCount i n = n := by
    rw [pageCount, hfp, hlp]
    simp
  constructor
  · rw [hw, successPaths, List.length_map, List.length_range, hpc]
  · intro j hj
    rw [hw, successPaths, List.getElem?_map,
      List.getElem?_range (by rw [hpc]; exact hj)]
    rw [hfp]
    simp

/-- Witness for C7 at the concrete unbounded request. -/
theorem C7_witness :
    (writesOf (pdf_to_png wEx toolAll).2).length = 3 ∧
    ∀ j : Nat, j < 3 →
      (writesOf (pdf_to_png wEx toolAll).2)[j]? =
        some (pjoin (resolvedOutputDir wEx.home tiAll)
          (splitextRoot (basename (expanduser wEx.home (tiAll.pdf_path.getD "")))
            ++ "_page_" ++ toString (1 + (j : Int)) ++ ".png")) :=
  C7_default_page_range wEx toolAll "tooluse-2" "/docs/report.pdf" tiAll 3
    rfl rfl rfl (by decide) (by decide) rfl rfl

/-- C3 (counterexample): on the specification's own mixed directory
`a.png`, `b.txt`, `c.PDF`, `d.webp`, the pipeline skips `c.PDF` with a
logged warning and includes no content for it, refuting the claim that
every file with a PDF extension is treated as analyzable input. -/
theorem C3_counterexample :
    content_blocks instrEx mixedFiles =
      .ok ([ContentBlock.text instrEx, ContentBlock.image "png" [1],
            ContentBlock.image "webp" [4]],
           [skipMsg "b.txt", skipMsg "c.PDF"])
    ∧ isSupportedImage "c.PDF" = false := by
  constructor
  · rfl
  · decide

/-- C3 (amended): exactly the files whose lower-cased name ends in one of
the five image extensions are included as analyzable content; every
other enumerated file — PDF files included — is skipped with the logged
warning. -/
theorem C3_amended_filter (s : String) (files : List DocFile) :
    content_blocks s files =
      .ok (ContentBlock.text s :: files.filterMap
             (fun f => (imageFormat f.name).map (fun m => ContentBlock.image m f.bytes)),
           (files.filter (fun f => ! isSupportedImage f.name)).map
             (fun f => skipMsg f.name))
    ∧ ∀ q : String, (imageFormat q).isSome = isSupportedImage q := by
  constructor
  · exact content_blocks_eq s files
  · intro q
    rcases hf : imageFormat q with _ | m
    · rw [(imageFormat_eq_none_iff q).mp hf]
      rfl
    · have hne : ¬ imageFormat q = none := by rw [hf]; simp
      rcases hs : isSupportedImage q with _ | _
      · exact absurd ((imageFormat_eq_none_iff q).mpr hs) hne
      · rfl

/-- C8: inclusion of directly supplied image files is decided by a
case-insensitive extension match against the fixed set
{jpg, jpeg, png, gif, webp}; every non-matching file is skipped with a
logged warning rather than an error, and the assembly still succeeds —
with the instruction block alone — when no file matches. -/
theorem C8_direct_image_filter (s : String) (files : List DocFile) :
    (∀ q : String, isSupportedImage q =
        (["jpg", "jpeg", "png", "gif", "webp"].any
          (fun e => pyEndswith (pyLower q) ("." ++ e))))
    ∧ (content_blocks s files).isOk = true
    ∧ (∀ z, content_blocks s files = Except.ok z →
        z.2 = (files.filter (fun f => ! isSupportedImage f.name)).map
                (fun f => skipMsg f.name)
        ∧ z.1.head? = some (ContentBlock.text s))
    ∧ (files.all (fun f => ! isSupportedImage f.name) = true →
        content_blocks s files =
          Except.ok ([ContentBlock.text s], files.map (fun f => skipMsg f.name))) := by
  have e1 : ("." ++ "jpg" : String) = ".jpg" := rfl
  have e2 : ("." ++ "jpeg" : String) = ".jpeg" := rfl
  have e3 : ("." ++ "png" : String) = ".png" := rfl
  have e4 : ("." ++ "gif" : String) = ".gif" := rfl
  have e5 : ("." ++ "webp" : String) = ".webp" := rfl
  refine ⟨?_, ?_, ?_, ?_⟩
  · intro q
    simp only [List.any_cons, List.any_nil, e1, e2, e3, e4, e5]
    rcases h1 : pyEndswith (pyLower q) ".jpg" with _ | _ <;>
      rcases h2 : pyEndswith (pyLower q) ".jpeg" with _ | _ <;>
        rcases h3 : pyEndswith (pyLower q) ".png" with _ | _ <;>
          rcases h4 : pyEndswith (pyLower q) ".gif" with _ | _ <;>
            rcases h5 : pyEndswith (pyLower q) ".webp" with _ | _ <;>
              simp [isSupportedImage, h1, h2, h3, h4, h5]
  · rw [content_blocks_eq]
    rfl
  · intro z hz
    rw [content_blocks_eq] at hz
    cases hz
    exact ⟨rfl, rfl⟩
  · intro hall
    rw [content_blocks_eq]
    have hmap : files.filterMap
        (fun f => (imageFormat f.name).map (fun m => ContentBlock.image m f.bytes)) = [] := by
      rw [List.filterMap_eq_nil_iff]
      intro f hf
      have hsf : isSupportedImage f.name = false := by
        have := List.all_eq_true.mp hall f hf
        simpa using this
      rw [(imageFormat_eq_none_iff f.name).mpr hsf]
      rfl
    have hfil : files.filter (fun f => ! isSupportedImage f.name) = files := by
      rw [List.filter_eq_self]
      intro f hf
      exact List.all_eq_true.mp hall f hf
    rw [hmap, hfil]

/-- Witness for C8: a directory with no supported image still yields a
successful assembly consisting of the instruction block alone. -/
theorem C8_witness :
    content_blocks instrEx [⟨"b.txt", [2]⟩] =
      Except.ok ([ContentBlock.text instrEx], [skipMsg "b.txt"]) :=
  (C8_direct_image_filter instrEx [⟨"b.txt", [2]⟩]).2.2.2 (by decide)

/-- C9: `load_credentials` returns normally in every case, degrading to
unset (`none`) values with a logged warning for a missing file, a logged
error for a parse failure, and silently unset values for a missing
section or missing keys — never a fatal failure. -/
theorem C9_graceful (w : CredWorld) :
    (w.present = false →
       load_credentials w =
         (⟨none, none, none⟩,
          [LogMsg.warnLog ("Credentials file not found: " ++ w.credentials_file)]))
    ∧ (∀ e, w.present = true → w.parsed = .error e →
       load_credentials w =
         (⟨none, none, none⟩,
          [LogMsg.errorLog ("Error loading credentials: " ++ e)]))
    ∧ (∀ g, w.present = true → w.parsed = .ok g →
       g.find? (fun u => u.1 == "langfuse") = none →
       load_credentials w =
         (⟨none, none, none⟩,
          [LogMsg.infoLog ("Loaded credentials from " ++ w.credentials_file)]))
    ∧ (∀ g u, w.present = true → w.parsed = .ok g →
       g.find? (fun v => v.1 == "langfuse") = some u →
       u.2.find? (fun v => v.1 == "langfuse_secret_key") = none →
       (load_credentials w).1.LANGFUSE_SECRET_KEY = none) := by
  refine ⟨?_, ?_, ?_, ?_⟩
  · intro h
    simp [load_credentials, h]
  · intro e hp hq
    simp [load_credentials, hp, hq]
  · intro g hp hq hfind
    simp [load_credentials, hp, hq, hfind]
  · intro g u hp hq hfind hkey
    have hl : pyLower "LANGFUSE_SECRET_KEY" = "langfuse_secret_key" := rfl
    simp [load_credentials, hp, hq, hfind, hl, hkey]

/-- Witness for C9: the missing-file case at a concrete world. -/
theorem C9_witness :
    load_credentials cwMissing =
      (⟨none, none, none⟩,
       [LogMsg.warnLog ("Credentials file not found: " ++ cwMissing.credentials_file)]) :=
  (C9_graceful cwMissing).1 rfl

/-- C10: for every file the directory loop includes, the format tag is
derived from the extension with `.jpg` and `.jpeg` both normalized to
`jpeg`, `.png` to `png`, `.gif` to `gif`, `.webp` to `webp`, and the tag
is always exactly one of those four values. -/
theorem C10_format_tag (q : String) (hsupp : isSupportedImage q = true) :
    ((pyEndswith (pyLower q) ".jpg" || pyEndswith (pyLower q) ".jpeg") = true →
       imageFormat q = some "jpeg")
    ∧ (pyEndswith (pyLower q) ".png" = true → imageFormat q = some "png")
    ∧ (pyEndswith (pyLower q) ".gif" = true → imageFormat q = some "gif")
    ∧ (pyEndswith (pyLower q) ".webp" = true → imageFormat q = some "webp")
    ∧ (imageFormat q = some "png" ∨ imageFormat q = some "jpeg"
        ∨ imageFormat q = some "gif" ∨ imageFormat q = some "webp") := by
  have pjp : ¬ (pyEndswith (pyLower q) ".jpg" = true
      ∧ pyEndswith (pyLower q) ".png" = true) := not_both_ends (by decide) (by decide)
  have ppj : ¬ (pyEndswith (pyLower q) ".png" = true
      ∧ pyEndswith (pyLower q) ".jpeg" = true) := not_both_ends (by decide) (by decide)
  have pgp : ¬ (pyEndswith (pyLower q) ".gif" = true
      ∧ pyEndswith (pyLower q) ".png" = true) := not_both_ends (by decide) (by decide)
  have pgj : ¬ (pyEndswith (pyLower q) ".gif" = true
      ∧ pyEndswith (pyLower q) ".jpg" = true) := not_both_ends (by decide) (by decide)
  have pge : ¬ (pyEndswith (pyLower q) ".gif" = true
      ∧ pyEndswith (pyLower q) ".jpeg" = true) := not_both_ends (by decide) (by decide)
  have pwp : ¬ (pyEndswith (pyLower q) ".png" = true
      ∧ pyEndswith (pyLower q) ".webp" = true) := not_both_ends (by decide) (by decide)
  have pwj : ¬ (pyEndswith (pyLower q) ".jpg" = true
      ∧ pyEndswith (pyLower q) ".webp" = true) := not_both_ends (by decide) (by decide)
  have pwe : ¬ (pyEndswith (pyLower q) ".jpeg" = true
      ∧ pyEndswith (pyLower q) ".webp" = true) := not_both_ends (by decide) (by decide)
  have pwg : ¬ (pyEndswith (pyLower q) ".gif" = true
      ∧ pyEndswith (pyLower q) ".webp" = true) := not_both_ends (by decide) (by decide)
  have f1 : (pyEndswith (pyLower q) ".jpg" || pyEndswith (pyLower q) ".jpeg") = true →
      imageFormat q = some "jpeg" := by
    intro h
    have hpng : pyEndswith (pyLower q) ".png" = false := by
      rcases hjpg : pyEndswith (pyLower q) ".jpg" with _ | _
      · have hjpeg : pyEndswith (pyLower q) ".jpeg" = true := by simpa [hjpg] using h
        exact ends_false_left ppj hjpeg
      · exact ends_false_right pjp hjpg
    simp [imageFormat, hpng, h]
  have f2 : pyEndswith (pyLower q) ".png" = true → imageFormat q = some "png" := by
    intro h
    simp [imageFormat, h]
  have f3 : pyEndswith (pyLower q) ".gif" = true → imageFormat q = some "gif" := by
    intro h
    have hpng := ends_false_right pgp h
    have hjpg := ends_false_right pgj h
    have hjpeg := ends_false_right pge h
    simp [imageFormat, hpng, hjpg, hjpeg, h]
  have f4 : pyEndswith (pyLower q) ".webp" = true → imageFormat q = some "webp" := by
    intro h
    have hpng := ends_false_left pwp h
    have hjpg := ends_false_left pwj h
    have hjpeg := ends_false_left pwe h
    have hgif := ends_false_left pwg h
    simp [imageFormat, hpng, hjpg, hjpeg, hgif, h]
  refine ⟨f1, f2, f3, f4, ?_⟩
  rcases h1 : pyEndswith (pyLower q) ".jpg" with _ | _
  · rcases h2 : pyEndswith (pyLower q) ".jpeg" with _ | _
    · rcases h3 : pyEndswith (pyLower q) ".png" with _ | _
      · rcases h4 : pyEndswith (pyLower q) ".gif" with _ | _
        · rcases h5 : pyEndswith (pyLower q) ".webp" with _ | _
          · exact absurd hsupp (by simp [isSupportedImage, h1, h2, h3, h4, h5])
          · exact Or.inr (Or.inr (Or.inr (f4 h5)))
        · exact Or.inr (Or.inr (Or.inl (f3 h4)))
      · exact Or.inl (f2 h3)
    · exact Or.inr (Or.inl (f1 (by simp [h1, h2])))
  · exact Or.inr (Or.inl (f1 (by simp [h1])))

/-- Witness for C10 at a mixed-case JPEG file name. -/
theorem C10_witness :
    ((pyEndswith (pyLower "photo.JPG") ".jpg"
        || pyEndswith (pyLower "photo.JPG") ".jpeg") = true →
       imageFormat "photo.JPG" = some "jpeg")
    ∧ (pyEndswith (pyLower "photo.JPG") ".png" = true →
       imageFormat "photo.JPG" = some "png")
    ∧ (pyEndswith (pyLower "photo.JPG") ".gif" = true →
       imageFormat "photo.JPG" = some "gif")
    ∧ (pyEndswith (pyLower "photo.JPG") ".webp" = true →
       imageFormat "photo.JPG" = some "webp")
    ∧ (imageFormat "photo.JPG" = some "png" ∨ imageFormat "photo.JPG" = some "jpeg"
        ∨ imageFormat "photo.JPG" = some "gif" ∨ imageFormat "photo.JPG" = some "webp") :=
  C10_format_tag "photo.JPG" (by decide)

end DocAnalyzer
